import Mathlib

/-!
Verification development for the Stratum V2 repository: the binary codec
(binary-sv2), the frame layer (framing-sv2), the noise handshake dispatch
(codec-sv2), the V1 message parsing (protocols/v1) and the translator
bridge (examples/translator), shallowly embedded in Lean.  Byte buffers
are lists of naturals; well-formed buffers hold values below 256.
-/

namespace Sv2

/-- Little-endian byte encoding of a natural number in a fixed width. -/
def leBytes : Nat → Nat → List Nat
  | 0, _ => []
  | w + 1, v => v % 256 :: leBytes w (v / 256)

/-- Numeric value of a little-endian byte list. -/
def leValue : List Nat → Nat
  | [] => 0
  | b :: bs => b + 256 * leValue bs

theorem leBytes_length (w v : Nat) : (leBytes w v).length = w := by
  induction w generalizing v with
  | zero => rfl
  | succ w ih => simp [leBytes, ih]

theorem leValue_leBytes (w v : Nat) (h : v < 256 ^ w) :
    leValue (leBytes w v) = v := by
  induction w generalizing v with
  | zero =>
    simp [Nat.pow_zero] at h
    simp [leBytes, leValue, h]
  | succ w ih =>
    have hdiv : v / 256 < 256 ^ w := by
      rw [Nat.div_lt_iff_lt_mul (by norm_num)]
      calc v < 256 ^ (w + 1) := h
      _ = 256 ^ w * 256 := by ring
    simp [leBytes, leValue, ih (v / 256) hdiv]
    omega

theorem leBytes_lt (w v : Nat) : ∀ b ∈ leBytes w v, b < 256 := by
  induction w generalizing v with
  | zero => simp [leBytes]
  | succ w ih =>
    intro b hb
    simp [leBytes] at hb
    rcases hb with h | h
    · omega
    · exact ih _ _ h

theorem leValue_lt (bs : List Nat) (h : ∀ b ∈ bs, b < 256) :
    leValue bs < 256 ^ bs.length := by
  induction bs with
  | nil => simp [leValue]
  | cons b bs ih =>
    have hb : b < 256 := h b (by simp)
    have ht : leValue bs < 256 ^ bs.length := ih (fun x hx => h x (by simp [hx]))
    simp [leValue, List.length_cons]
    calc b + 256 * leValue bs < 256 + 256 * leValue bs := by omega
    _ = 256 * (leValue bs + 1) := by ring
    _ ≤ 256 * 256 ^ bs.length := by
        have : leValue bs + 1 ≤ 256 ^ bs.length := ht
        exact Nat.mul_le_mul_left 256 this
    _ = 256 ^ (bs.length + 1) := by ring

/-- Error type of the binary codec, mirroring the Error enum of
binary-sv2 codec src lib.rs (the IoError payload is dropped). -/
inductive Error where
  | OutOfBound
  | NotABool (b : Nat)
  | WriteError (expected actual : Nat)
  | U24TooBig (v : Nat)
  | InvalidSignatureSize (n : Nat)
  | InvalidU256 (n : Nat)
  | InvalidU24 (v : Nat)
  | InvalidB0255Size (n : Nat)
  | InvalidB064KSize (n : Nat)
  | InvalidB016MSize (n : Nat)
  | InvalidSeq0255Size (n : Nat)
  | NonPrimitiveTypeCannotBeEncoded
  | PrimitiveConversionError
  | DecodableConversionError
  | UnInitializedDecoder
  | IoError
  | ReadError (expected actual : Nat)
  | VoidFieldMarker
  | ValueExceedsMaxSize (isFixed : Bool) (size headerSize maxSize : Nat)
      (badValue : List Nat) (badLen : Nat)
  | SeqExceedsMaxSize
  | NoDecodableFieldPassed
  | ValueIsNotAValidProtocol (b : Nat)
  | UnknownMessageType (b : Nat)
  | Sv2OptionHaveMoreThenOneElement (b : Nat)
deriving DecidableEq

/-- A decoded or encodable primitive value, mirroring the variants of
EncodablePrimitive / DecodablePrimitive in the codec source (the
OwnedU8 encoder-only alias is identified with u8; an f32 is carried as
its 4-byte bit pattern, which is all the codec ever moves). -/
inductive PrimValue where
  | u8 (v : Nat)
  | u16 (v : Nat)
  | bool (b : Bool)
  | u24 (v : Nat)
  | u256 (bs : List Nat)
  | shortTxId (bs : List Nat)
  | signature (bs : List Nat)
  | u32 (v : Nat)
  | u32AsRef (bs : List Nat)
  | f32 (bits : Nat)
  | u64 (v : Nat)
  | b032 (bs : List Nat)
  | b0255 (bs : List Nat)
  | b064k (bs : List Nat)
  | b016m (bs : List Nat)
deriving DecidableEq

/-- Primitive type markers, mirroring PrimitiveMarker in decodable.rs. -/
inductive PrimitiveMarker where
  | U8 | U16 | Bool | U24 | U256 | ShortTxId | Signature
  | U32 | U32AsRef | F32 | U64 | B032 | B0255 | B064K | B016M
deriving DecidableEq

/-- Marker of a primitive value. -/
def markerOfPrim : PrimValue → PrimitiveMarker
  | .u8 _ => .U8
  | .u16 _ => .U16
  | .bool _ => .Bool
  | .u24 _ => .U24
  | .u256 _ => .U256
  | .shortTxId _ => .ShortTxId
  | .signature _ => .Signature
  | .u32 _ => .U32
  | .u32AsRef _ => .U32AsRef
  | .f32 _ => .F32
  | .u64 _ => .U64
  | .b032 _ => .B032
  | .b0255 _ => .B0255
  | .b064k _ => .B064K
  | .b016m _ => .B016M

/-- Modelled from the spec: wire encoding of each primitive (spec section 6
table; the per-type to_slice_unchecked impls live in inner.rs and
copy_data_types, which are not part of the isolated sources).  Integers are
little-endian, fixed byte arrays are raw, bounded byte strings carry a
little-endian length prefix of 1, 1, 2 or 3 bytes. -/
def primBytes : PrimValue → List Nat
  | .u8 v => [v % 256]
  | .u16 v => leBytes 2 v
  | .bool b => [if b then 1 else 0]
  | .u24 v => leBytes 3 v
  | .u256 bs => bs
  | .shortTxId bs => bs
  | .signature bs => bs
  | .u32 v => leBytes 4 v
  | .u32AsRef bs => bs
  | .f32 bits => leBytes 4 bits
  | .u64 v => leBytes 8 v
  | .b032 bs => leBytes 1 bs.length ++ bs
  | .b0255 bs => leBytes 1 bs.length ++ bs
  | .b064k bs => leBytes 2 bs.length ++ bs
  | .b016m bs => leBytes 3 bs.length ++ bs

/-- Serialized size of a primitive value: the GetSize contract (constant for
Fixed types, header plus payload for the bounded byte strings). -/
def getSizePrim : PrimValue → Nat
  | .u8 _ => 1
  | .u16 _ => 2
  | .bool _ => 1
  | .u24 _ => 3
  | .u256 _ => 32
  | .shortTxId _ => 6
  | .signature _ => 64
  | .u32 _ => 4
  | .u32AsRef _ => 4
  | .f32 _ => 4
  | .u64 _ => 8
  | .b032 bs => 1 + bs.length
  | .b0255 bs => 1 + bs.length
  | .b064k bs => 2 + bs.length
  | .b016m bs => 3 + bs.length

/-- Rust representation invariant of a primitive value: integer variants fit
their width (they are machine integers in the source) and byte-array
variants respect the length bounds their constructors enforce
(InvalidU256, ValueExceedsMaxSize and friends). -/
def wfPrim : PrimValue → Bool
  | .u8 v => v < 256
  | .u16 v => v < 256 ^ 2
  | .bool _ => true
  | .u24 v => v < 256 ^ 3
  | .u256 bs => bs.length = 32 && bs.all (· < 256)
  | .shortTxId bs => bs.length = 6 && bs.all (· < 256)
  | .signature bs => bs.length = 64 && bs.all (· < 256)
  | .u32 v => v < 256 ^ 4
  | .u32AsRef bs => bs.length = 4 && bs.all (· < 256)
  | .f32 bits => bits < 256 ^ 4
  | .u64 v => v < 256 ^ 8
  | .b032 bs => bs.length ≤ 32 && bs.all (· < 256)
  | .b0255 bs => bs.length ≤ 255 && bs.all (· < 256)
  | .b064k bs => bs.length ≤ 65535 && bs.all (· < 256)
  | .b016m bs => bs.length ≤ 16777215 && bs.all (· < 256)

theorem primBytes_length (p : PrimValue) (h : wfPrim p = true) :
    (primBytes p).length = getSizePrim p := by
  cases p <;>
    simp_all [primBytes, getSizePrim, wfPrim, leBytes_length, Nat.add_comm]

mutual
/-- A field marker: a primitive or a nested structure of markers,
mirroring FieldMarker in decodable.rs. -/
inductive FieldMarker where
  | primitive (p : PrimitiveMarker)
  | struct (ps : FieldMarkers)
/-- A list of field markers (own list type so that all recursions below
are plainly structural). -/
inductive FieldMarkers where
  | nil
  | cons (m : FieldMarker) (ms : FieldMarkers)
end

mutual
/-- A decoded or encodable field: a primitive or a nested structure,
mirroring both DecodableField (decodable.rs) and EncodableField
(encodable.rs), which have the same shape. -/
inductive Sv2Field where
  | prim (p : PrimValue)
  | struct (fs : Sv2Fields)
/-- A list of fields. -/
inductive Sv2Fields where
  | nil
  | cons (f : Sv2Field) (fs : Sv2Fields)
end

mutual
/-- Marker of a field. -/
def markerOf : Sv2Field → FieldMarker
  | .prim p => .primitive (markerOfPrim p)
  | .struct fs => .struct (markersOf fs)
/-- Markers of a field list: the structure returned by get_structure. -/
def markersOf : Sv2Fields → FieldMarkers
  | .nil => .nil
  | .cons f fs => .cons (markerOf f) (markersOf fs)
end

mutual
/-- Representation invariant of a field tree. -/
def wfField : Sv2Field → Bool
  | .prim p => wfPrim p
  | .struct fs => wfFields fs
/-- Representation invariant of a field list. -/
def wfFields : Sv2Fields → Bool
  | .nil => true
  | .cons f fs => wfField f && wfFields fs
end

mutual
/-- Serialized bytes of a field: the denotation the encoder below writes. -/
def fieldBytes : Sv2Field → List Nat
  | .prim p => primBytes p
  | .struct fs => fieldsBytes fs
/-- Serialized bytes of a field list (concatenation in order). -/
def fieldsBytes : Sv2Fields → List Nat
  | .nil => []
  | .cons f fs => fieldBytes f ++ fieldsBytes fs
end

mutual
/-- GetSize of a field (EncodableField::get_size in encodable.rs). -/
def getSizeField : Sv2Field → Nat
  | .prim p => getSizePrim p
  | .struct fs => getSizeFields fs
/-- GetSize of a field list: sum of the member sizes. -/
def getSizeFields : Sv2Fields → Nat
  | .nil => 0
  | .cons f fs => getSizeField f + getSizeFields fs
end

/-- Modelled from the spec: size hint of a bounded byte string (spec
section 4.1; the Inner impl lives in inner.rs, not part of the isolated
sources).  Reads the length prefix at the offset and returns prefix plus
payload length; errors when the buffer cannot even hold the prefix. -/
def varSizeHint (header : Nat) (data : List Nat) (offset : Nat) :
    Except Error Nat :=
  if offset + header ≤ data.length then
    .ok (header + leValue ((data.drop offset).take header))
  else
    .error .OutOfBound

/-- Size hint of a primitive marker (SizeHint for PrimitiveMarker in
decodable.rs: constant for Fixed types via the blanket impl in
codec/mod.rs, prefix-dependent for the bounded byte strings). -/
def primSizeHint (m : PrimitiveMarker) (data : List Nat) (offset : Nat) :
    Except Error Nat :=
  match m with
  | .U8 => .ok 1
  | .U16 => .ok 2
  | .Bool => .ok 1
  | .U24 => .ok 3
  | .U256 => .ok 32
  | .ShortTxId => .ok 6
  | .Signature => .ok 64
  | .U32 => .ok 4
  | .U32AsRef => .ok 4
  | .F32 => .ok 4
  | .U64 => .ok 8
  | .B032 => varSizeHint 1 data offset
  | .B0255 => varSizeHint 1 data offset
  | .B064K => varSizeHint 2 data offset
  | .B016M => varSizeHint 3 data offset

mutual
/-- Size hint of a field marker (SizeHint for FieldMarker in
decodable.rs: primitives delegate, structures sum member hints at the
accumulated offsets). -/
def fieldSizeHint : FieldMarker → List Nat → Nat → Except Error Nat
  | .primitive p, data, offset => primSizeHint p data offset
  | .struct ps, data, offset => fieldsSizeHint ps data offset
/-- Accumulating size hint of a marker list: size += hint at offset+size,
as in the struct branch of SizeHint for FieldMarker. -/
def fieldsSizeHint : FieldMarkers → List Nat → Nat → Except Error Nat
  | .nil, _, _ => .ok 0
  | .cons m ms, data, offset =>
    match fieldSizeHint m data offset with
    | .error e => .error e
    | .ok s =>
      match fieldsSizeHint ms data (offset + s) with
      | .error e => .error e
      | .ok rest => .ok (s + rest)
end

/-- Modelled from the spec: unchecked decode of a bounded byte string
(read the prefix, then that many payload bytes); a buffer too short for
prefix or payload is a Rust panic, returned as none. -/
def varDecode (header : Nat) (tail : List Nat) : Option (List Nat) :=
  if header ≤ tail.length then
    let len := leValue (tail.take header)
    if header + len ≤ tail.length then some ((tail.drop header).take len)
    else none
  else none

/-- Decode of a primitive marker at an offset (PrimitiveMarker::decode in
decodable.rs; the per-type from_bytes_unchecked bodies live in inner.rs
and copy_data_types, modelled from the spec wire format).  The unchecked
reads slice the buffer directly, so a buffer too short for the value is a
Rust panic: that case is returned as none. -/
def primDecode (m : PrimitiveMarker) (data : List Nat) (offset : Nat) :
    Option PrimValue :=
  let tail := data.drop offset
  match m with
  | .U8 => if 1 ≤ tail.length then some (.u8 (leValue (tail.take 1))) else none
  | .U16 => if 2 ≤ tail.length then some (.u16 (leValue (tail.take 2))) else none
  | .Bool =>
    if 1 ≤ tail.length then some (.bool (leValue (tail.take 1) == 1)) else none
  | .U24 => if 3 ≤ tail.length then some (.u24 (leValue (tail.take 3))) else none
  | .U256 => if 32 ≤ tail.length then some (.u256 (tail.take 32)) else none
  | .ShortTxId => if 6 ≤ tail.length then some (.shortTxId (tail.take 6)) else none
  | .Signature => if 64 ≤ tail.length then some (.signature (tail.take 64)) else none
  | .U32 => if 4 ≤ tail.length then some (.u32 (leValue (tail.take 4))) else none
  | .U32AsRef => if 4 ≤ tail.length then some (.u32AsRef (tail.take 4)) else none
  | .F32 => if 4 ≤ tail.length then some (.f32 (leValue (tail.take 4))) else none
  | .U64 => if 8 ≤ tail.length then some (.u64 (leValue (tail.take 8))) else none
  | .B032 => varDecode 1 tail |>.map .b032
  | .B0255 => varDecode 1 tail |>.map .b0255
  | .B064K => varDecode 2 tail |>.map .b064k
  | .B016M => varDecode 3 tail |>.map .b016m

/-- Outcome of a decode step: a codec error or a Rust panic. -/
inductive Failure where
  | err (e : Error)
  | panic
deriving DecidableEq

mutual
/-- FieldMarker::decode in decodable.rs: primitives decode at offset 0 of
the slice handed to them; structures re-run the size-hint/split loop on
the slice.  split_at_mut with an out-of-range index and the unchecked
primitive reads are Rust panics (Failure.panic). -/
def fieldDecode : FieldMarker → List Nat → Except Failure Sv2Field
  | .primitive p, data =>
    match primDecode p data 0 with
    | some v => .ok (.prim v)
    | none => .error .panic
  | .struct ps, data =>
    match fieldsDecode ps data with
    | .ok fs => .ok (.struct fs)
    | .error f => .error f
/-- The struct branch loop of FieldMarker::decode: hint the head field on
the remaining slice, split, decode, recurse. -/
def fieldsDecode : FieldMarkers → List Nat → Except Failure Sv2Fields
  | .nil, _ => .ok .nil
  | .cons m ms, tail =>
    match fieldSizeHint m tail 0 with
    | .error e => .error (.err e)
    | .ok s =>
      if s ≤ tail.length then
        match fieldDecode m (tail.take s) with
        | .error f => .error f
        | .ok f =>
          match fieldsDecode ms (tail.drop s) with
          | .error g => .error g
          | .ok fs => .ok (.cons f fs)
      else .error .panic
end

/-- Decodable::from_bytes in decodable.rs (lines 70-85): walk the
structure, hint each field on the remaining buffer, return
DecodableConversionError when the hinted size exceeds the remaining
bytes, otherwise split and decode. -/
def fromBytesFields : FieldMarkers → List Nat → Except Failure Sv2Fields
  | .nil, _ => .ok .nil
  | .cons m ms, tail =>
    match fieldSizeHint m tail 0 with
    | .error e => .error (.err e)
    | .ok s =>
      if tail.length < s then .error (.err .DecodableConversionError)
      else
        match fieldDecode m (tail.take s) with
        | .error f => .error f
        | .ok f =>
          match fromBytesFields ms (tail.drop s) with
          | .error g => .error g
          | .ok fs => .ok (.cons f fs)

/-- Overwrite the bytes of dst from offset with payload (the effect of
to_slice_unchecked on the slice dst[offset..]). -/
def writeAt (dst : List Nat) (offset : Nat) (payload : List Nat) : List Nat :=
  dst.take offset ++ payload ++ dst.drop (offset + payload.length)

/-- Encode of a primitive into dst at offset: Sv2DataType::to_slice
(datatypes/mod.rs lines 83-90) checks the destination against get_size
and otherwise reports WriteError(get_size, available). -/
def primEncode (p : PrimValue) (dst : List Nat) (offset : Nat) :
    Except Error (List Nat × Nat) :=
  if getSizePrim p ≤ dst.length - offset then
    .ok (writeAt dst offset (primBytes p), getSizePrim p)
  else
    .error (.WriteError (getSizePrim p) (dst.length - offset))

mutual
/-- EncodableField::encode in encodable.rs (lines 273-287): check
dst.len() >= offset, then either encode the primitive into dst[offset..]
or fold over the members, advancing the offset by the bytes written. -/
def fieldEncode : Sv2Field → List Nat → Nat → Except Error (List Nat × Nat)
  | .prim p, dst, offset =>
    if offset ≤ dst.length then primEncode p dst offset
    else .error (.WriteError offset dst.length)
  | .struct fs, dst, offset =>
    if offset ≤ dst.length then fieldsEncode fs dst offset
    else .error (.WriteError offset dst.length)
/-- The struct branch loop of EncodableField::encode. -/
def fieldsEncode : Sv2Fields → List Nat → Nat → Except Error (List Nat × Nat)
  | .nil, dst, _ => .ok (dst, 0)
  | .cons f fs, dst, offset =>
    match fieldEncode f dst offset with
    | .error e => .error e
    | .ok (dst1, n) =>
      match fieldsEncode fs dst1 (offset + n) with
      | .error e => .error e
      | .ok (dst2, rest) => .ok (dst2, n + rest)
end

/-- to_bytes in the codec src lib.rs (lines 98-102): allocate a zero
buffer of get_size bytes, encode the message (a struct of its fields)
into it, and return the buffer. -/
def toBytes (m : Sv2Fields) : Except Error (List Nat) :=
  match fieldEncode (.struct m) (List.replicate (getSizeFields m) 0) 0 with
  | .error e => .error e
  | .ok (out, _) => .ok out

/-- Modelled from the spec: the u24 encoder rejects values of 2 to the 24
or above with U24TooBig (spec sections 3 and 8; the U24 impl lives in
copy_data_types, which is not part of the isolated sources, but the
U24TooBig variant is declared in the codec src lib.rs).  Accepted values
are laid out as the codec primitive. -/
def u24TryEncode (v : Nat) : Except Error (List Nat) :=
  if 16777216 ≤ v then .error (.U24TooBig v) else .ok (primBytes (.u24 v))

/-- Modelled from the spec: the 6-byte little-endian frame header (spec
section 3; header.rs is not part of the isolated sources).  Bytes 0..2 are
extension_type, byte 2 is msg_type, bytes 3..6 are msg_length; parsing
fails when fewer than 6 bytes are available. -/
structure FrameHeader where
  extension_type : Nat
  msg_type : Nat
  msg_length : Nat
deriving DecidableEq

/-- Modelled from the spec: Header::from_bytes needs the full 6-byte
header. -/
def headerFromBytes (bytes : List Nat) : Except Error FrameHeader :=
  if bytes.length < 6 then .error .OutOfBound
  else
    .ok { extension_type := leValue (bytes.take 2)
          msg_type := leValue ((bytes.drop 2).take 1)
          msg_length := leValue ((bytes.drop 3).take 3) }

/-- Sv2Frame::size_hint (framing.rs lines 130-146): on a header parse
failure it returns Header::SIZE - len (usize subtraction, cast to isize);
with a parsed header it returns 0 when len - 6 equals msg_length and
otherwise the sum (len - 6) + msg_length, exactly as the source computes
it. -/
def sv2FrameSizeHint (bytes : List Nat) : Int :=
  match headerFromBytes bytes with
  | .error _ => ((6 - bytes.length : Nat) : Int)
  | .ok h =>
    if bytes.length - 6 = h.msg_length then 0
    else ((bytes.length - 6 : Nat) : Int) + (h.msg_length : Int)

end Sv2

namespace Codec

/-- Handshake role (codec-sv2 src lib.rs): the inner Initiator and
Responder noise objects are abstract type parameters. -/
inductive HandshakeRole (I R : Type) where
  | Initiator (i : I)
  | Responder (r : R)

/-- Connection state (codec-sv2 src lib.rs lines 39-47): the transport
codec is an abstract type parameter. -/
inductive NoiseState (I R C : Type) where
  | NotInitialized
  | HandShake (h : HandshakeRole I R)
  | Transport (c : C)

/-- The codec-sv2 error variants used by the State step dispatch (the
error.rs module is not part of the isolated sources, but these variants
are named in the src lib.rs dispatch and in the spec); inner noise errors
are converted via NoiseError. -/
inductive CodecError (E : Type) where
  | InvalidStepForInitiator
  | InvalidStepForResponder
  | NotInHandShakeState
  | NoiseError (e : E)

/-- State::step_0 (src lib.rs lines 50-58): only a HandShake Initiator may
run it; the inner noise step (abstract here, it may update the initiator)
produces the frame.  The second component is the state left in the &mut
self receiver. -/
def step0 {I R C E : Type} (inner : I → Except E (List Nat) × I) :
    NoiseState I R C → Except (CodecError E) (List Nat) × NoiseState I R C
  | .HandShake (.Initiator i) =>
    match inner i with
    | (.ok frame, i2) => (.ok frame, .HandShake (.Initiator i2))
    | (.error e, i2) => (.error (.NoiseError e), .HandShake (.Initiator i2))
  | .HandShake (.Responder r) =>
    (.error .InvalidStepForResponder, .HandShake (.Responder r))
  | .NotInitialized => (.error .NotInHandShakeState, .NotInitialized)
  | .Transport c => (.error .NotInHandShakeState, .Transport c)

/-- State::step_1 (src lib.rs lines 60-68): only a HandShake Responder may
run it. -/
def step1 {I R C E : Type} (inner : R → List Nat → Except E (List Nat) × R)
    (rePub : List Nat) :
    NoiseState I R C → Except (CodecError E) (List Nat) × NoiseState I R C
  | .HandShake (.Responder r) =>
    match inner r rePub with
    | (.ok frame, r2) => (.ok frame, .HandShake (.Responder r2))
    | (.error e, r2) => (.error (.NoiseError e), .HandShake (.Responder r2))
  | .HandShake (.Initiator i) =>
    (.error .InvalidStepForInitiator, .HandShake (.Initiator i))
  | .NotInitialized => (.error .NotInHandShakeState, .NotInitialized)
  | .Transport c => (.error .NotInHandShakeState, .Transport c)

/-- State::step_2 (src lib.rs lines 70-78): only a HandShake Initiator may
run it. -/
def step2 {I R C E : Type} (inner : I → List Nat → Except E (List Nat) × I)
    (message : List Nat) :
    NoiseState I R C → Except (CodecError E) (List Nat) × NoiseState I R C
  | .HandShake (.Initiator i) =>
    match inner i message with
    | (.ok frame, i2) => (.ok frame, .HandShake (.Initiator i2))
    | (.error e, i2) => (.error (.NoiseError e), .HandShake (.Initiator i2))
  | .HandShake (.Responder r) =>
    (.error .InvalidStepForResponder, .HandShake (.Responder r))
  | .NotInitialized => (.error .NotInHandShakeState, .NotInitialized)
  | .Transport c => (.error .NotInHandShakeState, .Transport c)

/-- State::step_3 (src lib.rs lines 80-94): consumes the state; a
HandShake Responder moves into Transport mode with the codec produced by
the inner noise step. -/
def step3 {I R C E : Type} (inner : R → List Nat → Except E (List Nat × C))
    (cipherList : List Nat) :
    NoiseState I R C → Except (CodecError E) (List Nat × NoiseState I R C)
  | .HandShake (.Responder r) =>
    match inner r cipherList with
    | .ok (msg, codec) => .ok (msg, .Transport codec)
    | .error e => .error (.NoiseError e)
  | .HandShake (.Initiator _) => .error .InvalidStepForInitiator
  | .NotInitialized => .error .NotInHandShakeState
  | .Transport _ => .error .NotInHandShakeState

/-- State::step_4 (src lib.rs lines 96-107): consumes the state; a
HandShake Initiator moves into Transport mode. -/
def step4 {I R C E : Type} (inner : I → List Nat → Except E C)
    (cipherChosed : List Nat) :
    NoiseState I R C → Except (CodecError E) (NoiseState I R C)
  | .HandShake (.Initiator i) =>
    match inner i cipherChosed with
    | .ok codec => .ok (.Transport codec)
    | .error e => .error (.NoiseError e)
  | .HandShake (.Responder _) => .error .InvalidStepForResponder
  | .NotInitialized => .error .NotInHandShakeState
  | .Transport _ => .error .NotInHandShakeState

end Codec

namespace V1

/-- Value of a single hex digit, accepting both cases as hex::decode and
u32::from_str_radix do. -/
def hexDigitVal? (c : Char) : Option Nat :=
  if '0' ≤ c ∧ c ≤ '9' then some (c.toNat - 48)
  else if 'a' ≤ c ∧ c ≤ 'f' then some (c.toNat - 87)
  else if 'A' ≤ c ∧ c ≤ 'F' then some (c.toNat - 55)
  else none

/-- Modelled from the spec: u32::from_str_radix(s, 16) as used by the
HexU32Be TryFrom impl in the v1 utils module (not part of the isolated
sources): digits accumulate base 16, any non-digit fails, and a value
that no longer fits in a u32 fails (overflow). -/
def parseHexU32Go (acc : Nat) : List Char → Option Nat
  | [] => some acc
  | c :: cs =>
    match hexDigitVal? c with
    | none => none
    | some d =>
      if acc * 16 + d < 4294967296 then parseHexU32Go (acc * 16 + d) cs
      else none

/-- Modelled from the spec: parse of a hex string into a u32 value; the
empty string fails. -/
def parseHexU32 (s : String) : Option Nat :=
  match s.toList with
  | [] => none
  | c :: cs => parseHexU32Go 0 (c :: cs)

/-- Lower-case hex digit character. -/
def hexDigitChar (n : Nat) : Char :=
  if n < 10 then Char.ofNat (48 + n) else Char.ofNat (87 + n)

/-- Lower-case hex rendering of a natural number without leading zeros:
the Rust format x formatter used for version, bits and time in
create_notify (0 renders as a single 0 digit). -/
def hexChars (n : Nat) : List Char :=
  if _h : n < 16 then [hexDigitChar n]
  else hexChars (n / 16) ++ [hexDigitChar (n % 16)]
decreasing_by
  simp
  omega

/-- Modelled from the spec: hex::decode of a character list as performed
by the HexBytes TryFrom impl in the v1 utils module (not part of the
isolated sources): two hex digits per byte, an odd length or a non-digit
fails. -/
def hexDecodeChars : List Char → Option (List Nat)
  | [] => some []
  | [_] => none
  | c1 :: c2 :: cs =>
    match hexDigitVal? c1, hexDigitVal? c2, hexDecodeChars cs with
    | some d1, some d2, some rest => some ((16 * d1 + d2) :: rest)
    | _, _, _ => none

/-- Hex rendering of a HexBytes value (two lower-case digits per byte):
how the serde serializer of the v1 Notify displays these fields. -/
def hexEncodeChars (bs : List Nat) : List Char :=
  (bs.map (fun b => [hexDigitChar (b / 16), hexDigitChar (b % 16)])).flatten

/-- A byte that is the ASCII code of a lower-case hex digit. -/
def isLowerHexByte (b : Nat) : Bool :=
  (48 ≤ b && b ≤ 57) || (97 ≤ b && b ≤ 102)

/-- Digit value of the ASCII code of a lower-case hex digit. -/
def hexByteVal (b : Nat) : Nat :=
  if b ≤ 57 then b - 48 else b - 87

/-- The v1 server_to_client::Notify record (v1 methods source lines
41-54); prev_hash holds the raw PrevHash bytes, coin_base1, coin_base2
and merkle_branch hold decoded HexBytes contents, and version, bits and
time hold HexU32Be values. -/
structure Notify where
  job_id : String
  prev_hash : List Nat
  coin_base1 : List Nat
  coin_base2 : List Nat
  merkle_branch : List (List Nat)
  version : Nat
  bits : Nat
  time : Nat
  clean_jobs : Bool
deriving DecidableEq

end V1

namespace Translator

open V1

/-- add_job_id of the translator main.rs (lines 190-199): the
JOB_ID_TO_UPSTREAM_ID map as a function; when a previous job id is given
its entry is removed first, then (job_id, up_id) is inserted.  The two
safe_lock sections are sequential in the source, so the map is threaded
functionally. -/
def addJobId (m : Nat → Option Nat) (jobId upId : Nat)
    (prevJobId : Option Nat) : Nat → Option Nat :=
  let m1 : Nat → Option Nat :=
    match prevJobId with
    | some p => fun k => if k = p then none else m k
    | none => m
  fun k => if k = jobId then some upId else m1 k

/-- Modelled from the Rust std (restricted to the ASCII plane, which is
the only fragment create_notify can succeed on): str::from_utf8 of a byte
list.  Any byte of 128 or above is mapped to none; in full UTF-8 such a
byte could start a multi-byte sequence, but every non-ASCII character
fails the subsequent hex parse in any case, so the composition below
agrees with the source on all inputs. -/
def asciiChars? (bs : List Nat) : Option (List Char) :=
  if bs.all (· < 128) then some (bs.map Char.ofNat) else none

/-- The coinbase and merkle conversion used by create_notify: interpret
the raw bytes as a UTF-8 string, then hex-decode it into a HexBytes
value (both unwrapped in the source, so none models a panic). -/
def hexBytesOfBytes? (bs : List Nat) : Option (List Nat) :=
  match asciiChars? bs with
  | some cs => hexDecodeChars cs
  | none => none

/-- hexBytesOfBytes? over the merkle path list. -/
def hexBytesList? : List (List Nat) → Option (List (List Nat))
  | [] => some []
  | x :: xs =>
    match hexBytesOfBytes? x, hexBytesList? xs with
    | some h, some t => some (h :: t)
    | _, _ => none

/-- SetNewPrevHash of the mining subprotocol
(subprotocols/mining/src/set_new_prev_hash.rs): prev_hash is the raw
U256 byte content. -/
structure SetNewPrevHash where
  channel_id : Nat
  job_id : Nat
  prev_hash : List Nat
  min_ntime : Nat
  nbits : Nat
deriving DecidableEq

/-- NewExtendedMiningJob of the mining subprotocol
(subprotocols/mining/src/new_mining_job.rs); coinbase_tx_pre and
coinbase_tx_suf carry the byte content of the source fields
coinbase_tx_prefix and coinbase_tx_suffix. -/
structure NewExtendedMiningJob where
  channel_id : Nat
  job_id : Nat
  min_ntime : Option Nat
  version : Nat
  version_rolling_allowed : Bool
  merkle_path : List (List Nat)
  coinbase_tx_pre : List Nat
  coinbase_tx_suf : List Nat
deriving DecidableEq

/-- NextMiningNotify (translator next_mining_notify.rs lines 10-15). -/
structure NextMiningNotify where
  set_new_prev_hash : Option SetNewPrevHash
  new_extended_mining_job : Option NewExtendedMiningJob
deriving DecidableEq

/-- NextMiningNotify::create_notify (translator next_mining_notify.rs
lines 68-156).  The outer Option is the returned Option of the source
(none exactly when a slot is missing); the inner Option models the
unwrap calls in the emit branch: none stands for a Rust panic (invalid
UTF-8 or non-hex bytes), some for the built notify.  The receiver is
&self, so the two slots are never mutated. -/
def createNotify (s : NextMiningNotify) : Option (Option Notify) :=
  match s.set_new_prev_hash, s.new_extended_mining_job with
  | some nph, some nj =>
    some (
      match hexBytesOfBytes? nj.coinbase_tx_pre,
            hexBytesOfBytes? nj.coinbase_tx_suf,
            hexBytesList? nj.merkle_path,
            parseHexU32 (String.mk (hexChars nj.version)),
            parseHexU32 (String.mk (hexChars nph.nbits)),
            parseHexU32 (String.mk (hexChars nph.min_ntime)) with
      | some cb1, some cb2, some mb, some ver, some bits, some time =>
        some { job_id := toString nph.job_id
               prev_hash := nph.prev_hash
               coin_base1 := cb1
               coin_base2 := cb2
               merkle_branch := mb
               version := ver
               bits := bits
               time := time
               clean_jobs := false }
      | _, _, _, _, _, _ => none)
  | _, _ => none

end Translator

namespace V1

/-- A JSON value, the fragment serde_json::Value exercised by the v1
Configure parsing (numbers restricted to naturals, which covers the
response ids involved). -/
inductive Json where
  | null
  | bool (b : Bool)
  | num (n : Nat)
  | str (s : String)
  | arr (xs : List Json)
  | obj (kvs : List (String × Json))

/-- Value::as_bool. -/
def jsonAsBool : Json → Option Bool
  | .bool b => some b
  | _ => none

/-- Value::as_str. -/
def jsonAsStr : Json → Option String
  | .str s => some s
  | _ => none

/-- Map::get on a JSON object. -/
def jsonGet (kvs : List (String × Json)) (key : String) : Option Json :=
  (kvs.find? (fun kv => kv.fst == key)).map (fun kv => kv.snd)

/-- The v1 json_rpc::Response as consumed by Configure::try_from (the
error field plays no role there). -/
structure Response where
  id : Nat
  result : Json

/-- VersionRollingParams (v1 methods source lines 563-568), with the
HexU32Be values carried as naturals. -/
structure VersionRollingParams where
  version_rolling : Bool
  version_rolling_mask : Nat
  version_rolling_min_bit_count : Nat
deriving DecidableEq

/-- Configure (v1 methods source lines 436-441). -/
structure Configure where
  id : Nat
  version_rolling : Option VersionRollingParams
  minimum_difficulty : Option Bool
deriving DecidableEq

/-- The ParsingMethodError variants reachable from Configure::try_from
(payloads dropped; HexParseError stands for the ParseIntError conversion
raised by a failing HexU32Be try_into). -/
inductive ParsingMethodError where
  | ImpossibleToParseResultField
  | UnexpectedObjectParams
  | HexParseError
deriving DecidableEq

/-- Configure::try_from for a response (v1 methods source lines 491-561):
result must be an object; version-rolling and version-rolling.mask must
appear together (mask parsed as hex u32), version-rolling.min-bit-count
is optional and defaults to HexU32Be(0); a partial version-rolling group
is UnexpectedObjectParams; minimum-difficulty is an optional bool. -/
def configureTryFrom (msg : Response) : Except ParsingMethodError Configure :=
  match msg.result with
  | .obj params =>
    let vr0 := jsonGet params "version-rolling"
    let mask0 := jsonGet params "version-rolling.mask"
    let minbit0 := jsonGet params "version-rolling.min-bit-count"
    let mindiff0 := jsonGet params "minimum-difficulty"
    let vrStep : Except ParsingMethodError (Option VersionRollingParams) :=
      match vr0, mask0 with
      | some vrj, some maskj =>
        (match jsonAsBool vrj with
         | none => .error .UnexpectedObjectParams
         | some vrb =>
           match jsonAsStr maskj with
           | none => .error .UnexpectedObjectParams
           | some maskStr =>
             match parseHexU32 maskStr with
             | none => .error .HexParseError
             | some maskVal =>
               match minbit0 with
               | some mbj =>
                 (match jsonAsStr mbj with
                  | none => .error .UnexpectedObjectParams
                  | some mbStr =>
                    match parseHexU32 mbStr with
                    | none => .error .HexParseError
                    | some mbVal =>
                      .ok (some { version_rolling := vrb
                                  version_rolling_mask := maskVal
                                  version_rolling_min_bit_count := mbVal }))
               | none =>
                 .ok (some { version_rolling := vrb
                             version_rolling_mask := maskVal
                             version_rolling_min_bit_count := 0 }))
      | none, none =>
        match minbit0 with
        | none => .ok none
        | some _ => .error .UnexpectedObjectParams
      | _, _ => .error .UnexpectedObjectParams
    match vrStep with
    | .error e => .error e
    | .ok vrOpt =>
      match mindiff0 with
      | some mj =>
        match jsonAsBool mj with
        | none => .error .UnexpectedObjectParams
        | some b => .ok { id := msg.id, version_rolling := vrOpt,
                          minimum_difficulty := some b }
      | none => .ok { id := msg.id, version_rolling := vrOpt,
                      minimum_difficulty := none }
  | _ => .error .ImpossibleToParseResultField

end V1

namespace Sv2

theorem writeAt_length (dst : List Nat) (offset : Nat) (payload : List Nat)
    (h : offset + payload.length ≤ dst.length) :
    (writeAt dst offset payload).length = dst.length := by
  simp [writeAt]
  omega

theorem writeAt_zero_full (dst payload : List Nat)
    (h : payload.length = dst.length) :
    writeAt dst 0 payload = payload := by
  simp [writeAt, List.drop_eq_nil_of_le (le_of_eq h.symm)]

theorem take_writeAt_prefix (dst : List Nat) (offset : Nat) (b : List Nat)
    (h : offset ≤ dst.length) :
    (writeAt dst offset b).take (offset + b.length) = dst.take offset ++ b := by
  have hlen : (dst.take offset).length = offset := by
    simp [List.length_take, Nat.min_eq_left h]
  simp only [writeAt, List.append_assoc, List.take_append_eq_append_take, hlen]
  rw [List.take_of_length_le (by rw [hlen]; omega)]
  simp [hlen]

theorem writeAt_append (dst : List Nat) (offset : Nat) (b1 b2 : List Nat)
    (h : offset + b1.length + b2.length ≤ dst.length) :
    writeAt (writeAt dst offset b1) (offset + b1.length) b2 =
      writeAt dst offset (b1 ++ b2) := by
  have hoff : offset ≤ dst.length := by omega
  have hlen : (dst.take offset).length = offset := by
    simp [List.length_take, Nat.min_eq_left hoff]
  have htake : (writeAt dst offset b1).take (offset + b1.length) =
      dst.take offset ++ b1 := take_writeAt_prefix dst offset b1 hoff
  have hdrop : (writeAt dst offset b1).drop (offset + b1.length + b2.length) =
      dst.drop (offset + b1.length + b2.length) := by
    simp only [writeAt, List.append_assoc, List.drop_append_eq_append_drop, hlen]
    rw [List.drop_eq_nil_of_le (by rw [hlen]; omega)]
    rw [List.drop_eq_nil_of_le (by omega : b1.length ≤
      offset + b1.length + b2.length - offset)]
    simp [List.drop_drop]
    congr 1
    omega
  show (writeAt dst offset b1).take (offset + b1.length) ++ b2 ++
      (writeAt dst offset b1).drop (offset + b1.length + b2.length) = _
  rw [htake, hdrop]
  simp [writeAt, List.append_assoc, Nat.add_assoc]

mutual
theorem fieldBytes_length :
    ∀ (f : Sv2Field), wfField f = true →
      (fieldBytes f).length = getSizeField f
  | .prim p, h => by
    simpa [fieldBytes, getSizeField] using primBytes_length p (by simpa [wfField] using h)
  | .struct fs, h => by
    simp only [fieldBytes, getSizeField]
    exact fieldsBytes_length fs (by simpa [wfField] using h)

theorem fieldsBytes_length :
    ∀ (fs : Sv2Fields), wfFields fs = true →
      (fieldsBytes fs).length = getSizeFields fs
  | .nil, _ => rfl
  | .cons f fs, h => by
    have h1 : wfField f = true := by
      have := h
      simp [wfFields, Bool.and_eq_true] at this
      exact this.1
    have h2 : wfFields fs = true := by
      have := h
      simp [wfFields, Bool.and_eq_true] at this
      exact this.2
    simp [fieldsBytes, getSizeFields, fieldBytes_length f h1,
      fieldsBytes_length fs h2]
end

theorem wfFields_cons {f : Sv2Field} {fs : Sv2Fields}
    (h : wfFields (.cons f fs) = true) :
    wfField f = true ∧ wfFields fs = true := by
  simpa [wfFields, Bool.and_eq_true] using h

mutual
theorem fieldEncode_eq :
    ∀ (f : Sv2Field) (dst : List Nat) (offset : Nat), wfField f = true →
      offset + getSizeField f ≤ dst.length →
      fieldEncode f dst offset =
        .ok (writeAt dst offset (fieldBytes f), getSizeField f)
  | .prim p, dst, offset, hwf, hle => by
    have hp : wfPrim p = true := by simpa [wfField] using hwf
    have hsz : getSizeField (.prim p) = getSizePrim p := rfl
    rw [hsz] at hle
    simp only [fieldEncode, primEncode, fieldBytes, getSizeField]
    rw [if_pos (by omega : offset ≤ dst.length)]
    rw [if_pos (by omega : getSizePrim p ≤ dst.length - offset)]
  | .struct fs, dst, offset, hwf, hle => by
    have hfs : wfFields fs = true := by simpa [wfField] using hwf
    have hsz : getSizeField (.struct fs) = getSizeFields fs := rfl
    rw [hsz] at hle
    simp only [fieldEncode, fieldBytes, getSizeField]
    rw [if_pos (by omega : offset ≤ dst.length)]
    exact fieldsEncode_eq fs dst offset hfs hle

theorem fieldsEncode_eq :
    ∀ (fs : Sv2Fields) (dst : List Nat) (offset : Nat), wfFields fs = true →
      offset + getSizeFields fs ≤ dst.length →
      fieldsEncode fs dst offset =
        .ok (writeAt dst offset (fieldsBytes fs), getSizeFields fs)
  | .nil, dst, offset, _, _ => by
    simp [fieldsEncode, fieldsBytes, getSizeFields, writeAt]
  | .cons f fs, dst, offset, hwf, hle => by
    obtain ⟨h1, h2⟩ := wfFields_cons hwf
    have hszc : getSizeFields (.cons f fs) = getSizeField f + getSizeFields fs := rfl
    rw [hszc] at hle
    have hlen1 : (fieldBytes f).length = getSizeField f := fieldBytes_length f h1
    have hlen2 : (fieldsBytes fs).length = getSizeFields fs := fieldsBytes_length fs h2
    have hd1 : fieldEncode f dst offset =
        .ok (writeAt dst offset (fieldBytes f), getSizeField f) :=
      fieldEncode_eq f dst offset h1 (by omega)
    have hwlen : (writeAt dst offset (fieldBytes f)).length = dst.length :=
      writeAt_length dst offset (fieldBytes f) (by omega)
    have hd2 : fieldsEncode fs (writeAt dst offset (fieldBytes f))
        (offset + getSizeField f) =
        .ok (writeAt (writeAt dst offset (fieldBytes f))
          (offset + getSizeField f) (fieldsBytes fs), getSizeFields fs) :=
      fieldsEncode_eq fs _ _ h2 (by omega)
    simp only [fieldsEncode, hd1, hd2, fieldsBytes, getSizeFields]
    rw [← hlen1, writeAt_append dst offset (fieldBytes f) (fieldsBytes fs)
      (by omega)]
end

theorem toBytes_eq (m : Sv2Fields) (h : wfFields m = true) :
    toBytes m = .ok (fieldsBytes m) := by
  have hlen : (fieldsBytes m).length = getSizeFields m := fieldsBytes_length m h
  have he : fieldEncode (.struct m) (List.replicate (getSizeFields m) 0) 0 =
      .ok (writeAt (List.replicate (getSizeFields m) 0) 0
        (fieldBytes (.struct m)), getSizeField (.struct m)) :=
    fieldEncode_eq (.struct m) _ 0 (by simpa [wfField] using h)
      (by simp [getSizeField])
  simp only [toBytes, he]
  rw [show fieldBytes (.struct m) = fieldsBytes m from rfl,
    writeAt_zero_full _ _ (by simp [hlen])]

theorem varSizeHint_drop (h a off : Nat) (data : List Nat) (hpos : 1 ≤ h) :
    varSizeHint h data (a + off) = varSizeHint h (data.drop a) off := by
  simp only [varSizeHint, List.length_drop]
  by_cases hc : a + off + h ≤ data.length
  · rw [if_pos hc, if_pos (by omega)]
    simp [List.drop_drop, Nat.add_comm]
  · rw [if_neg hc, if_neg (by omega)]

mutual
theorem fieldSizeHint_drop :
    ∀ (m : FieldMarker) (a : Nat) (data : List Nat) (off : Nat),
      fieldSizeHint m data (a + off) = fieldSizeHint m (data.drop a) off
  | .primitive p, a, data, off => by
    cases p <;>
      simp [fieldSizeHint, primSizeHint,
        varSizeHint_drop 1 a off data (by norm_num),
        varSizeHint_drop 2 a off data (by norm_num),
        varSizeHint_drop 3 a off data (by norm_num)]
  | .struct ms, a, data, off => by
    simp only [fieldSizeHint]
    exact fieldsSizeHint_drop ms a data off

theorem fieldsSizeHint_drop :
    ∀ (ms : FieldMarkers) (a : Nat) (data : List Nat) (off : Nat),
      fieldsSizeHint ms data (a + off) = fieldsSizeHint ms (data.drop a) off
  | .nil, _, _, _ => rfl
  | .cons m ms, a, data, off => by
    simp only [fieldsSizeHint, fieldSizeHint_drop m a data off]
    cases hm : fieldSizeHint m (data.drop a) off with
    | error e => rfl
    | ok s =>
      dsimp only
      rw [show a + off + s = a + (off + s) by omega,
        fieldsSizeHint_drop ms a data (off + s)]
end

theorem varSizeHint_take (h off s n : Nat) (data : List Nat)
    (hok : varSizeHint h data off = .ok s) (hn : off + s ≤ n) :
    varSizeHint h (data.take n) off = .ok s := by
  simp only [varSizeHint] at hok ⊢
  by_cases hc : off + h ≤ data.length
  · rw [if_pos hc] at hok
    injection hok with hs
    rw [if_pos (by simp [List.length_take]; omega)]
    rw [List.drop_take, List.take_take, Nat.min_eq_left (by omega)]
    rw [hs]
  · rw [if_neg hc] at hok
    cases hok
mutual
theorem fieldSizeHint_take :
    ∀ (m : FieldMarker) (data : List Nat) (off s n : Nat),
      fieldSizeHint m data off = .ok s → off + s ≤ n →
      fieldSizeHint m (data.take n) off = .ok s
  | .primitive p, data, off, s, n, hok, hn => by
    cases p <;>
      first
        | (simp only [fieldSizeHint, primSizeHint] at hok ⊢; exact hok)
        | (simp only [fieldSizeHint, primSizeHint] at hok ⊢;
           exact varSizeHint_take _ off s n data hok hn)
  | .struct ms, data, off, s, n, hok, hn => by
    simp only [fieldSizeHint] at hok ⊢
    exact fieldsSizeHint_take ms data off s n hok hn

theorem fieldsSizeHint_take :
    ∀ (ms : FieldMarkers) (data : List Nat) (off s n : Nat),
      fieldsSizeHint ms data off = .ok s → off + s ≤ n →
      fieldsSizeHint ms (data.take n) off = .ok s
  | .nil, _, _, _, _, hok, _ => hok
  | .cons m ms, data, off, s, n, hok, hn => by
    simp only [fieldsSizeHint] at hok ⊢
    cases hm : fieldSizeHint m data off with
    | error e => rw [hm] at hok; cases hok
    | ok s1 =>
      rw [hm] at hok
      dsimp only at hok
      cases hrest : fieldsSizeHint ms data (off + s1) with
      | error e => rw [hrest] at hok; cases hok
      | ok s2 =>
        rw [hrest] at hok
        dsimp only at hok
        injection hok with hs
        rw [fieldSizeHint_take m data off s1 n hm (by omega)]
        dsimp only
        rw [fieldsSizeHint_take ms data (off + s1) s2 n hrest (by omega)]
        dsimp only
        rw [hs]
end

theorem fieldSizeHint_pos_of_prim (p : PrimitiveMarker) (data : List Nat)
    (off s : Nat) (hok : primSizeHint p data off = .ok s) : 1 ≤ s := by
  cases p <;> simp only [primSizeHint, varSizeHint] at hok <;>
    first
      | (injection hok with hs; omega)
      | (split at hok
         · injection hok with hs; omega
         · cases hok)

theorem primDecode_isSome (p : PrimitiveMarker) (data : List Nat) (s : Nat)
    (hok : primSizeHint p data 0 = .ok s) (hlen : data.length = s) :
    (primDecode p data 0).isSome = true := by
  cases p <;>
    simp only [primSizeHint, varSizeHint, Nat.zero_add, List.drop_zero]
      at hok <;>
    first
      | (injection hok with hs
         simp only [primDecode, List.drop_zero]
         rw [if_pos (by omega)]
         rfl)
      | (split at hok
         · injection hok with hs
           simp only [primDecode, List.drop_zero, varDecode]
           rw [if_pos (by omega)]
           rw [if_pos (by omega)]
           rfl
         · cases hok)

mutual
theorem fieldDecode_ok :
    ∀ (m : FieldMarker) (data : List Nat) (s : Nat),
      fieldSizeHint m data 0 = .ok s → data.length = s →
      ∃ f, fieldDecode m data = .ok f
  | .primitive p, data, s, hok, hlen => by
    simp only [fieldSizeHint] at hok
    obtain ⟨v, hv⟩ := Option.isSome_iff_exists.mp
      (primDecode_isSome p data s hok hlen)
    exact ⟨.prim v, by simp [fieldDecode, hv]⟩
  | .struct ms, data, s, hok, hlen => by
    simp only [fieldSizeHint] at hok
    obtain ⟨fs, hfs⟩ := fieldsDecode_ok ms data s hok hlen
    exact ⟨.struct fs, by simp [fieldDecode, hfs]⟩

theorem fieldsDecode_ok :
    ∀ (ms : FieldMarkers) (data : List Nat) (s : Nat),
      fieldsSizeHint ms data 0 = .ok s → data.length = s →
      ∃ fs, fieldsDecode ms data = .ok fs
  | .nil, data, s, _, _ => ⟨.nil, rfl⟩
  | .cons m ms, data, s, hok, hlen => by
    simp only [fieldsSizeHint] at hok
    cases hm : fieldSizeHint m data 0 with
    | error e => rw [hm] at hok; cases hok
    | ok s1 =>
      rw [hm] at hok
      dsimp only at hok
      cases hrest : fieldsSizeHint ms data (0 + s1) with
      | error e => rw [hrest] at hok; cases hok
      | ok s2 =>
        rw [hrest] at hok
        dsimp only at hok
        injection hok with hs
        have hs1 : s1 ≤ data.length := by omega
        have hm2 : fieldSizeHint m (data.take s1) 0 = .ok s1 :=
          fieldSizeHint_take m data 0 s1 s1 hm (by omega)
        obtain ⟨f, hf⟩ := fieldDecode_ok m (data.take s1) s1 hm2
          (by simp [List.length_take]; omega)
        have hdrop : fieldsSizeHint ms (data.drop s1) 0 = .ok s2 := by
          rw [← fieldsSizeHint_drop ms s1 data 0]
          rw [show s1 + 0 = 0 + s1 by omega]
          exact hrest
        obtain ⟨fs, hfs⟩ := fieldsDecode_ok ms (data.drop s1) s2 hdrop
          (by simp [List.length_drop]; omega)
        refine ⟨.cons f fs, ?_⟩
        simp only [fieldsDecode, hm]
        rw [if_pos hs1]
        rw [hf, hfs]
end

theorem fromBytesFields_no_panic :
    ∀ (ms : FieldMarkers) (data : List Nat),
      fromBytesFields ms data ≠ .error .panic
  | .nil, data => by simp [fromBytesFields]
  | .cons m ms, data => by
    simp only [fromBytesFields]
    cases hm : fieldSizeHint m data 0 with
    | error e => simp
    | ok s =>
      dsimp only
      by_cases hlt : data.length < s
      · rw [if_pos hlt]
        simp
      · rw [if_neg hlt]
        have hm2 : fieldSizeHint m (data.take s) 0 = .ok s :=
          fieldSizeHint_take m data 0 s s hm (by omega)
        obtain ⟨f, hf⟩ := fieldDecode_ok m (data.take s) s hm2
          (by simp [List.length_take]; omega)
        rw [hf]
        dsimp only
        cases hrec : fromBytesFields ms (data.drop s) with
        | error g =>
          have hne := fromBytesFields_no_panic ms (data.drop s)
          rw [hrec] at hne
          exact hne
        | ok fs => simp

theorem varSizeHint_encoded (h : Nat) (bs rest : List Nat)
    (hlen : bs.length < 256 ^ h) :
    varSizeHint h ((leBytes h bs.length ++ bs) ++ rest) 0 =
      .ok (h + bs.length) := by
  have hlb : (leBytes h bs.length).length = h := leBytes_length h bs.length
  simp only [varSizeHint, List.drop_zero, Nat.zero_add]
  rw [if_pos (by simp [hlb])]
  rw [List.append_assoc, List.take_append_eq_append_take, hlb,
    List.take_of_length_le (le_of_eq hlb), Nat.sub_self, List.take_zero,
    List.append_nil, leValue_leBytes h bs.length hlen]

mutual
theorem fieldSizeHint_encoded :
    ∀ (f : Sv2Field) (rest : List Nat), wfField f = true →
      fieldSizeHint (markerOf f) (fieldBytes f ++ rest) 0 =
        .ok (getSizeField f)
  | .prim p, rest, hwf => by
    have hp : wfPrim p = true := by simpa [wfField] using hwf
    cases p with
    | u8 v =>
      simp [markerOf, markerOfPrim, fieldBytes, primBytes, fieldSizeHint,
        primSizeHint, getSizeField, getSizePrim]
    | u16 v =>
      simp [markerOf, markerOfPrim, fieldBytes, primBytes, fieldSizeHint,
        primSizeHint, getSizeField, getSizePrim]
    | bool b =>
      simp [markerOf, markerOfPrim, fieldBytes, primBytes, fieldSizeHint,
        primSizeHint, getSizeField, getSizePrim]
    | u24 v =>
      simp [markerOf, markerOfPrim, fieldBytes, primBytes, fieldSizeHint,
        primSizeHint, getSizeField, getSizePrim]
    | u256 bs =>
      simp [markerOf, markerOfPrim, fieldBytes, primBytes, fieldSizeHint,
        primSizeHint, getSizeField, getSizePrim]
    | shortTxId bs =>
      simp [markerOf, markerOfPrim, fieldBytes, primBytes, fieldSizeHint,
        primSizeHint, getSizeField, getSizePrim]
    | signature bs =>
      simp [markerOf, markerOfPrim, fieldBytes, primBytes, fieldSizeHint,
        primSizeHint, getSizeField, getSizePrim]
    | u32 v =>
      simp [markerOf, markerOfPrim, fieldBytes, primBytes, fieldSizeHint,
        primSizeHint, getSizeField, getSizePrim]
    | u32AsRef bs =>
      simp [markerOf, markerOfPrim, fieldBytes, primBytes, fieldSizeHint,
        primSizeHint, getSizeField, getSizePrim]
    | f32 bits =>
      simp [markerOf, markerOfPrim, fieldBytes, primBytes, fieldSizeHint,
        primSizeHint, getSizeField, getSizePrim]
    | u64 v =>
      simp [markerOf, markerOfPrim, fieldBytes, primBytes, fieldSizeHint,
        primSizeHint, getSizeField, getSizePrim]
    | b032 bs =>
      have hb : bs.length < 256 ^ 1 := by
        simp [wfPrim, Bool.and_eq_true] at hp
        omega
      simpa [markerOf, markerOfPrim, fieldBytes, primBytes, fieldSizeHint,
        primSizeHint, getSizeField, getSizePrim, Nat.add_comm] using
        varSizeHint_encoded 1 bs rest hb
    | b0255 bs =>
      have hb : bs.length < 256 ^ 1 := by
        simp [wfPrim, Bool.and_eq_true] at hp
        omega
      simpa [markerOf, markerOfPrim, fieldBytes, primBytes, fieldSizeHint,
        primSizeHint, getSizeField, getSizePrim, Nat.add_comm] using
        varSizeHint_encoded 1 bs rest hb
    | b064k bs =>
      have hb : bs.length < 256 ^ 2 := by
        simp [wfPrim, Bool.and_eq_true] at hp
        omega
      simpa [markerOf, markerOfPrim, fieldBytes, primBytes, fieldSizeHint,
        primSizeHint, getSizeField, getSizePrim, Nat.add_comm] using
        varSizeHint_encoded 2 bs rest hb
    | b016m bs =>
      have hb : bs.length < 256 ^ 3 := by
        simp [wfPrim, Bool.and_eq_true] at hp
        omega
      simpa [markerOf, markerOfPrim, fieldBytes, primBytes, fieldSizeHint,
        primSizeHint, getSizeField, getSizePrim, Nat.add_comm] using
        varSizeHint_encoded 3 bs rest hb
  | .struct fs, rest, hwf => by
    have hfs : wfFields fs = true := by simpa [wfField] using hwf
    simp only [markerOf, fieldBytes, fieldSizeHint, getSizeField]
    exact fieldsSizeHint_encoded fs rest hfs

theorem fieldsSizeHint_encoded :
    ∀ (fs : Sv2Fields) (rest : List Nat), wfFields fs = true →
      fieldsSizeHint (markersOf fs) (fieldsBytes fs ++ rest) 0 =
        .ok (getSizeFields fs)
  | .nil, rest, _ => rfl
  | .cons f fs, rest, hwf => by
    obtain ⟨h1, h2⟩ := wfFields_cons hwf
    have hlenf : (fieldBytes f).length = getSizeField f := fieldBytes_length f h1
    simp only [markersOf, fieldsBytes, fieldsSizeHint, getSizeFields]
    rw [List.append_assoc,
      fieldSizeHint_encoded f (fieldsBytes fs ++ rest) h1]
    dsimp only
    rw [show (0 : Nat) + getSizeField f = getSizeField f + 0 by omega,
      fieldsSizeHint_drop (markersOf fs) (getSizeField f)
        (fieldBytes f ++ (fieldsBytes fs ++ rest)) 0]
    rw [← hlenf, List.drop_left]
    rw [fieldsSizeHint_encoded fs rest h2]
end

theorem varDecode_encoded (h : Nat) (bs : List Nat)
    (hlen : bs.length < 256 ^ h) :
    varDecode h (leBytes h bs.length ++ bs) = some bs := by
  have hlb : (leBytes h bs.length).length = h := leBytes_length h bs.length
  simp only [varDecode]
  rw [if_pos (by simp [hlb])]
  rw [List.take_append_eq_append_take, hlb,
    List.take_of_length_le (le_of_eq hlb), Nat.sub_self, List.take_zero,
    List.append_nil, leValue_leBytes h bs.length hlen]
  rw [if_pos (by simp [hlb])]
  rw [List.drop_append_eq_append_drop, hlb, List.drop_eq_nil_of_le
    (le_of_eq hlb), Nat.sub_self, List.drop_zero, List.nil_append,
    List.take_length]

theorem primDecode_encoded (p : PrimValue) (hwf : wfPrim p = true) :
    primDecode (markerOfPrim p) (primBytes p) 0 = some p := by
  cases p with
  | u8 v =>
    have hv : v < 256 := by simpa [wfPrim] using hwf
    simp [markerOfPrim, primBytes, primDecode, leValue,
      Nat.mod_eq_of_lt hv]
  | u16 v =>
    have hv : v < 256 ^ 2 := by simpa [wfPrim] using hwf
    simp [markerOfPrim, primBytes, primDecode, leBytes_length,
      List.take_of_length_le (le_of_eq (leBytes_length 2 v)),
      leValue_leBytes 2 v hv]
  | bool b =>
    cases b <;> simp [markerOfPrim, primBytes, primDecode, leValue]
  | u24 v =>
    have hv : v < 256 ^ 3 := by simpa [wfPrim] using hwf
    simp [markerOfPrim, primBytes, primDecode, leBytes_length,
      List.take_of_length_le (le_of_eq (leBytes_length 3 v)),
      leValue_leBytes 3 v hv]
  | u256 bs =>
    have hv : bs.length = 32 := by
      simp [wfPrim, Bool.and_eq_true] at hwf
      exact hwf.1
    simp [markerOfPrim, primBytes, primDecode, hv,
      List.take_of_length_le (le_of_eq hv)]
  | shortTxId bs =>
    have hv : bs.length = 6 := by
      simp [wfPrim, Bool.and_eq_true] at hwf
      exact hwf.1
    simp [markerOfPrim, primBytes, primDecode, hv,
      List.take_of_length_le (le_of_eq hv)]
  | signature bs =>
    have hv : bs.length = 64 := by
      simp [wfPrim, Bool.and_eq_true] at hwf
      exact hwf.1
    simp [markerOfPrim, primBytes, primDecode, hv,
      List.take_of_length_le (le_of_eq hv)]
  | u32 v =>
    have hv : v < 256 ^ 4 := by simpa [wfPrim] using hwf
    simp [markerOfPrim, primBytes, primDecode, leBytes_length,
      List.take_of_length_le (le_of_eq (leBytes_length 4 v)),
      leValue_leBytes 4 v hv]
  | u32AsRef bs =>
    have hv : bs.length = 4 := by
      simp [wfPrim, Bool.and_eq_true] at hwf
      exact hwf.1
    simp [markerOfPrim, primBytes, primDecode, hv,
      List.take_of_length_le (le_of_eq hv)]
  | f32 bits =>
    have hv : bits < 256 ^ 4 := by simpa [wfPrim] using hwf
    simp [markerOfPrim, primBytes, primDecode, leBytes_length,
      List.take_of_length_le (le_of_eq (leBytes_length 4 bits)),
      leValue_leBytes 4 bits hv]
  | u64 v =>
    have hv : v < 256 ^ 8 := by simpa [wfPrim] using hwf
    simp [markerOfPrim, primBytes, primDecode, leBytes_length,
      List.take_of_length_le (le_of_eq (leBytes_length 8 v)),
      leValue_leBytes 8 v hv]
  | b032 bs =>
    have hb : bs.length < 256 ^ 1 := by
      simp [wfPrim, Bool.and_eq_true] at hwf
      omega
    simp [markerOfPrim, primBytes, primDecode, varDecode_encoded 1 bs hb]
  | b0255 bs =>
    have hb : bs.length < 256 ^ 1 := by
      simp [wfPrim, Bool.and_eq_true] at hwf
      omega
    simp [markerOfPrim, primBytes, primDecode, varDecode_encoded 1 bs hb]
  | b064k bs =>
    have hb : bs.length < 256 ^ 2 := by
      simp [wfPrim, Bool.and_eq_true] at hwf
      omega
    simp [markerOfPrim, primBytes, primDecode, varDecode_encoded 2 bs hb]
  | b016m bs =>
    have hb : bs.length < 256 ^ 3 := by
      simp [wfPrim, Bool.and_eq_true] at hwf
      omega
    simp [markerOfPrim, primBytes, primDecode, varDecode_encoded 3 bs hb]

mutual
theorem fieldDecode_encoded :
    ∀ (f : Sv2Field), wfField f = true →
      fieldDecode (markerOf f) (fieldBytes f) = .ok f
  | .prim p, hwf => by
    have hp : wfPrim p = true := by simpa [wfField] using hwf
    simp [markerOf, fieldBytes, fieldDecode, primDecode_encoded p hp]
  | .struct fs, hwf => by
    have hfs : wfFields fs = true := by simpa [wfField] using hwf
    simp [markerOf, fieldBytes, fieldDecode, fieldsDecode_encoded fs hfs]

theorem fieldsDecode_encoded :
    ∀ (fs : Sv2Fields), wfFields fs = true →
      fieldsDecode (markersOf fs) (fieldsBytes fs) = .ok fs
  | .nil, _ => rfl
  | .cons f fs, hwf => by
    obtain ⟨h1, h2⟩ := wfFields_cons hwf
    have hlenf : (fieldBytes f).length = getSizeField f := fieldBytes_length f h1
    simp only [markersOf, fieldsBytes, fieldsDecode]
    rw [fieldSizeHint_encoded f (fieldsBytes fs) h1]
    dsimp only
    rw [if_pos (by simp [← hlenf])]
    rw [← hlenf, List.take_left, List.drop_left]
    rw [fieldDecode_encoded f h1, fieldsDecode_encoded fs h2]
end

theorem fromBytesFields_encoded :
    ∀ (fs : Sv2Fields), wfFields fs = true →
      fromBytesFields (markersOf fs) (fieldsBytes fs) = .ok fs
  | .nil, _ => rfl
  | .cons f fs, hwf => by
    obtain ⟨h1, h2⟩ := wfFields_cons hwf
    have hlenf : (fieldBytes f).length = getSizeField f := fieldBytes_length f h1
    simp only [markersOf, fieldsBytes, fromBytesFields]
    rw [fieldSizeHint_encoded f (fieldsBytes fs) h1]
    dsimp only
    rw [if_neg (by simp [← hlenf])]
    rw [← hlenf, List.take_left, List.drop_left]
    rw [fieldDecode_encoded f h1, fromBytesFields_encoded fs h2]

end Sv2

namespace V1

theorem hexDigitVal_hexDigitChar : ∀ d, d < 16 →
    hexDigitVal? (hexDigitChar d) = some d := by decide

theorem parseHexU32Go_append (acc : Nat) (xs : List Char) (c : Char) :
    parseHexU32Go acc (xs ++ [c]) =
      match parseHexU32Go acc xs with
      | none => none
      | some a =>
        match hexDigitVal? c with
        | none => none
        | some d => if a * 16 + d < 4294967296 then some (a * 16 + d)
                    else none := by
  induction xs generalizing acc with
  | nil => rfl
  | cons x xs ih =>
    simp only [List.cons_append, parseHexU32Go]
    cases hexDigitVal? x with
    | none => rfl
    | some d =>
      dsimp only
      by_cases hb : acc * 16 + d < 4294967296
      · rw [if_pos hb, if_pos hb]
        exact ih _
      · rw [if_neg hb, if_neg hb]

theorem parseHex_hexChars (v : Nat) (hv : v < 4294967296) :
    parseHexU32Go 0 (hexChars v) = some v := by
  by_cases h16 : v < 16
  · rw [show hexChars v = [hexDigitChar v] from by
      rw [hexChars]; exact dif_pos h16]
    simp only [parseHexU32Go, hexDigitVal_hexDigitChar v h16]
    rw [if_pos (by omega)]
    simp [parseHexU32Go]
  · rw [show hexChars v = hexChars (v / 16) ++ [hexDigitChar (v % 16)] from
      by rw [hexChars]; exact dif_neg h16]
    rw [parseHexU32Go_append]
    rw [parseHex_hexChars (v / 16) (by omega)]
    dsimp only
    rw [hexDigitVal_hexDigitChar (v % 16) (by omega)]
    dsimp only
    rw [if_pos (by omega)]
    congr 1
    omega
termination_by v
decreasing_by
  omega

theorem hexChars_ne_nil (v : Nat) : hexChars v ≠ [] := by
  rw [hexChars]
  split <;> simp

theorem parseHexU32_hexChars (v : Nat) (hv : v < 4294967296) :
    parseHexU32 (String.mk (hexChars v)) = some v := by
  have h := parseHex_hexChars v hv
  have hne := hexChars_ne_nil v
  unfold parseHexU32
  rw [show (String.mk (hexChars v)).toList = hexChars v from rfl]
  cases hcs : hexChars v with
  | nil => exact absurd hcs hne
  | cons c cs =>
    rw [hcs] at h
    exact h

theorem isLowerHexByte_lt (b : Nat) (h : isLowerHexByte b = true) : b < 128 := by
  simp [isLowerHexByte] at h
  omega

theorem lowerHex_digit_facts : ∀ b, b < 103 → isLowerHexByte b = true →
    hexDigitVal? (Char.ofNat b) = some (hexByteVal b) ∧
    hexByteVal b < 16 ∧ hexDigitChar (hexByteVal b) = Char.ofNat b := by decide

theorem isLowerHexByte_lt103 (b : Nat) (h : isLowerHexByte b = true) :
    b < 103 := by
  simp [isLowerHexByte] at h
  omega

theorem hexDecode_map_ofNat :
    ∀ (bs : List Nat), bs.all isLowerHexByte = true → bs.length % 2 = 0 →
      ∃ ds, hexDecodeChars (bs.map Char.ofNat) = some ds ∧
        hexEncodeChars ds = bs.map Char.ofNat
  | [], _, _ => ⟨[], rfl, rfl⟩
  | [b], _, heven => by simp at heven
  | b1 :: b2 :: rest, hall, heven => by
    have h1 : isLowerHexByte b1 = true := by
      simp [List.all_cons, Bool.and_eq_true] at hall
      exact hall.1
    have h2 : isLowerHexByte b2 = true := by
      simp [List.all_cons, Bool.and_eq_true] at hall
      exact hall.2.1
    have hrest : rest.all isLowerHexByte = true := by
      simp [List.all_cons, Bool.and_eq_true] at hall
      exact List.all_eq_true.mpr (fun x hx => hall.2.2 x hx)
    have hreste : rest.length % 2 = 0 := by
      simp [List.length_cons] at heven
      omega
    obtain ⟨ds, hd, he⟩ := hexDecode_map_ofNat rest hrest hreste
    obtain ⟨hv1, hlt1, hc1⟩ := lowerHex_digit_facts b1 (isLowerHexByte_lt103 b1 h1) h1
    obtain ⟨hv2, hlt2, hc2⟩ := lowerHex_digit_facts b2 (isLowerHexByte_lt103 b2 h2) h2
    refine ⟨(16 * hexByteVal b1 + hexByteVal b2) :: ds, ?_, ?_⟩
    · simp only [List.map_cons, hexDecodeChars, hv1, hv2, hd]
    · simp only [hexEncodeChars, List.map_cons, List.flatten_cons]
      rw [show (16 * hexByteVal b1 + hexByteVal b2) / 16 = hexByteVal b1 by
        omega]
      rw [show (16 * hexByteVal b1 + hexByteVal b2) % 16 = hexByteVal b2 by
        omega]
      rw [hc1, hc2]
      simp only [hexEncodeChars] at he
      rw [he]
      rfl

end V1

namespace Translator

theorem hexBytesOfBytes_eq (bs : List Nat)
    (hall : bs.all V1.isLowerHexByte = true) (heven : bs.length % 2 = 0) :
    ∃ ds, hexBytesOfBytes? bs = some ds ∧
      V1.hexEncodeChars ds = bs.map Char.ofNat := by
  have hascii : asciiChars? bs = some (bs.map Char.ofNat) := by
    unfold asciiChars?
    rw [if_pos (List.all_eq_true.mpr (fun b hb => by
      simpa using V1.isLowerHexByte_lt b (List.all_eq_true.mp hall b hb)))]
  obtain ⟨ds, hd, he⟩ := V1.hexDecode_map_ofNat bs hall heven
  exact ⟨ds, by simp [hexBytesOfBytes?, hascii, hd], he⟩

theorem hexBytesList_eq :
    ∀ (xs : List (List Nat)),
      (∀ x ∈ xs, x.all V1.isLowerHexByte = true ∧ x.length % 2 = 0) →
      ∃ ms, hexBytesList? xs = some ms
  | [], _ => ⟨[], rfl⟩
  | x :: xs, h => by
    obtain ⟨dx, hdx, _⟩ :=
      hexBytesOfBytes_eq x (h x (by simp)).1 (h x (by simp)).2
    obtain ⟨ms, hms⟩ := hexBytesList_eq xs (fun y hy => h y (by simp [hy]))
    exact ⟨dx :: ms, by simp [hexBytesList?, hdx, hms]⟩

end Translator

/-- C1: the spec says Sv2Frame::size_hint returns 6 - len for a short
header, 0 for a complete frame, a negative value whose magnitude is the
missing byte count for a short payload, and the surplus for an oversized
buffer.  The source instead returns the sum (len - 6) + msg_length
whenever len - 6 differs from msg_length, contradicting its own doc
comment: on the repository's own test input (header declaring
msg_length 46 with no payload bytes) it returns +46 where the documented
contract gives -46.  The first three conjuncts show the short-header and
complete cases do hold; the last evaluates the divergent case. -/
theorem claim_C1_frame_size_hint :
    Sv2.sv2FrameSizeHint [] = 6 ∧
    Sv2.sv2FrameSizeHint [0, 128, 30] = 3 ∧
    Sv2.sv2FrameSizeHint ([0, 128, 30, 46, 0, 0] ++ List.replicate 46 7) = 0 ∧
    Sv2.sv2FrameSizeHint [0, 128, 30, 46, 0, 0] = 46 := by decide

/-- C2: round-trip of the binary codec: for every Sv2 message (a struct
of well-formed fields, the representation invariant the Rust constructors
enforce), to_bytes succeeds with the concatenated field encoding, and
from_bytes over the message structure returns the original message. -/
theorem claim_C2_codec_roundtrip (m : Sv2.Sv2Fields)
    (h : Sv2.wfFields m = true) :
    Sv2.toBytes m = .ok (Sv2.fieldsBytes m) ∧
    Sv2.fromBytesFields (Sv2.markersOf m) (Sv2.fieldsBytes m) = .ok m :=
  ⟨Sv2.toBytes_eq m h, Sv2.fromBytesFields_encoded m h⟩

theorem claim_C2_codec_roundtrip_witness :
    Sv2.toBytes (.cons (.prim (.u32 7)) (.cons (.prim (.b0255 [1, 2, 3]))
      (.cons (.struct (.cons (.prim (.bool true))
        (.cons (.prim (.u16 65535)) .nil)))
      (.cons (.prim (.u256 (List.replicate 32 171))) .nil)))) =
      .ok (Sv2.fieldsBytes (.cons (.prim (.u32 7))
        (.cons (.prim (.b0255 [1, 2, 3]))
        (.cons (.struct (.cons (.prim (.bool true))
          (.cons (.prim (.u16 65535)) .nil)))
        (.cons (.prim (.u256 (List.replicate 32 171))) .nil))))) ∧
    Sv2.fromBytesFields
      (Sv2.markersOf (.cons (.prim (.u32 7)) (.cons (.prim (.b0255 [1, 2, 3]))
        (.cons (.struct (.cons (.prim (.bool true))
          (.cons (.prim (.u16 65535)) .nil)))
        (.cons (.prim (.u256 (List.replicate 32 171))) .nil)))))
      (Sv2.fieldsBytes (.cons (.prim (.u32 7)) (.cons (.prim (.b0255 [1, 2, 3]))
        (.cons (.struct (.cons (.prim (.bool true))
          (.cons (.prim (.u16 65535)) .nil)))
        (.cons (.prim (.u256 (List.replicate 32 171))) .nil))))) =
      .ok (.cons (.prim (.u32 7)) (.cons (.prim (.b0255 [1, 2, 3]))
        (.cons (.struct (.cons (.prim (.bool true))
          (.cons (.prim (.u16 65535)) .nil)))
        (.cons (.prim (.u256 (List.replicate 32 171))) .nil)))) :=
  claim_C2_codec_roundtrip _ (by decide)

/-- C3: create_notify takes the emit branch (and, when the byte fields
are decodable, returns Some notify) exactly when both the
set_new_prev_hash and new_extended_mining_job slots are filled; when a
slot is missing it returns None.  The receiver is &self, so the slots
are never mutated; the unwrap panics of the emit branch are modelled by
the inner Option. -/
theorem claim_C3_create_notify (s : Translator.NextMiningNotify) :
    ((Translator.createNotify s).isSome = true ↔
      (s.set_new_prev_hash.isSome = true ∧
       s.new_extended_mining_job.isSome = true)) ∧
    (∀ nph nj, s.set_new_prev_hash = some nph →
      s.new_extended_mining_job = some nj →
      (Translator.hexBytesOfBytes? nj.coinbase_tx_pre).isSome = true →
      (Translator.hexBytesOfBytes? nj.coinbase_tx_suf).isSome = true →
      (Translator.hexBytesList? nj.merkle_path).isSome = true →
      nj.version < 4294967296 → nph.nbits < 4294967296 →
      nph.min_ntime < 4294967296 →
      ∃ n, Translator.createNotify s = some (some n)) := by
  constructor
  · cases hs1 : s.set_new_prev_hash <;>
      cases hs2 : s.new_extended_mining_job <;>
      simp [Translator.createNotify, hs1, hs2]
  · intro nph nj h1 h2 hc1 hc2 hm hv hb ht
    obtain ⟨cb1, hcb1⟩ := Option.isSome_iff_exists.mp hc1
    obtain ⟨cb2, hcb2⟩ := Option.isSome_iff_exists.mp hc2
    obtain ⟨mb, hmb⟩ := Option.isSome_iff_exists.mp hm
    refine ⟨⟨toString nph.job_id, nph.prev_hash, cb1, cb2, mb, nj.version,
      nph.nbits, nph.min_ntime, false⟩, ?_⟩
    simp only [Translator.createNotify, h1, h2, hcb1, hcb2, hmb,
      V1.parseHexU32_hexChars nj.version hv,
      V1.parseHexU32_hexChars nph.nbits hb,
      V1.parseHexU32_hexChars nph.min_ntime ht]

theorem claim_C3_create_notify_witness :
    (Translator.createNotify
      ⟨some ⟨1, 79, [222, 173], 1347323577, 472564911⟩,
       some ⟨1, 79, none, 2, false, [[48, 49]], [48, 49], [48, 97]⟩⟩).isSome
      = true ∧
    Translator.createNotify ⟨none, none⟩ = none := by
  constructor
  · obtain ⟨n, hn⟩ := (claim_C3_create_notify
      ⟨some ⟨1, 79, [222, 173], 1347323577, 472564911⟩,
       some ⟨1, 79, none, 2, false, [[48, 49]], [48, 49], [48, 97]⟩⟩).2
      _ _ rfl rfl (by decide)
      (by decide) (by decide) (by decide) (by decide) (by decide)
    rw [hn]
    rfl
  · rfl

/-- C4: with both slots filled and the byte fields holding lower-case
ASCII hex (the regime of the repository's tests), create_notify builds
the V1 notify with job_id the decimal string of set_new_prev_hash.job_id,
prev_hash the raw prev_hash bytes, coin_base1 and coin_base2 the
hex-parsed coinbase bytes whose hex rendering reproduces exactly the
characters of coinbase_tx_prefix and coinbase_tx_suffix, version, bits
and time the HexU32Be values of the corresponding u32 fields (rendered
big-endian by the v1 serializer), and clean_jobs false. -/
theorem claim_C4_notify_fields (s : Translator.NextMiningNotify)
    (nph : Translator.SetNewPrevHash) (nj : Translator.NewExtendedMiningJob)
    (h1 : s.set_new_prev_hash = some nph)
    (h2 : s.new_extended_mining_job = some nj)
    (hpre : nj.coinbase_tx_pre.all V1.isLowerHexByte = true)
    (hpree : nj.coinbase_tx_pre.length % 2 = 0)
    (hsuf : nj.coinbase_tx_suf.all V1.isLowerHexByte = true)
    (hsufe : nj.coinbase_tx_suf.length % 2 = 0)
    (hmer : ∀ x ∈ nj.merkle_path,
      x.all V1.isLowerHexByte = true ∧ x.length % 2 = 0)
    (hv : nj.version < 4294967296) (hb : nph.nbits < 4294967296)
    (ht : nph.min_ntime < 4294967296) :
    ∃ cb1 cb2 mb,
      Translator.hexBytesOfBytes? nj.coinbase_tx_pre = some cb1 ∧
      Translator.hexBytesOfBytes? nj.coinbase_tx_suf = some cb2 ∧
      Translator.hexBytesList? nj.merkle_path = some mb ∧
      V1.hexEncodeChars cb1 = nj.coinbase_tx_pre.map Char.ofNat ∧
      V1.hexEncodeChars cb2 = nj.coinbase_tx_suf.map Char.ofNat ∧
      Translator.createNotify s = some (some
        { job_id := toString nph.job_id
          prev_hash := nph.prev_hash
          coin_base1 := cb1
          coin_base2 := cb2
          merkle_branch := mb
          version := nj.version
          bits := nph.nbits
          time := nph.min_ntime
          clean_jobs := false }) := by
  obtain ⟨cb1, hcb1, hen1⟩ := Translator.hexBytesOfBytes_eq _ hpre hpree
  obtain ⟨cb2, hcb2, hen2⟩ := Translator.hexBytesOfBytes_eq _ hsuf hsufe
  obtain ⟨mb, hmb⟩ := Translator.hexBytesList_eq _ hmer
  refine ⟨cb1, cb2, mb, hcb1, hcb2, hmb, hen1, hen2, ?_⟩
  simp only [Translator.createNotify, h1, h2, hcb1, hcb2, hmb,
    V1.parseHexU32_hexChars nj.version hv,
    V1.parseHexU32_hexChars nph.nbits hb,
    V1.parseHexU32_hexChars nph.min_ntime ht]

theorem claim_C4_notify_fields_witness :
    Translator.createNotify
      ⟨some ⟨1, 79, [222, 173], 1347323577, 472564911⟩,
       some ⟨1, 79, none, 2, false, [[48, 49]], [48, 49], [48, 97]⟩⟩ =
      some (some ⟨"79", [222, 173], [1], [10], [[1]], 2, 472564911,
        1347323577, false⟩) := by
  obtain ⟨cb1, cb2, mb, hc1, hc2, hm, _, _, hcr⟩ :=
    claim_C4_notify_fields
      ⟨some ⟨1, 79, [222, 173], 1347323577, 472564911⟩,
       some ⟨1, 79, none, 2, false, [[48, 49]], [48, 49], [48, 97]⟩⟩
      ⟨1, 79, [222, 173], 1347323577, 472564911⟩
      ⟨1, 79, none, 2, false, [[48, 49]], [48, 49], [48, 97]⟩
      rfl rfl (by decide) (by decide) (by decide)
      (by decide) (by decide) (by decide) (by decide) (by decide)
  have e1 : cb1 = [1] := by
    have hv : Translator.hexBytesOfBytes? [48, 49] = some [1] := by decide
    have h12 := hv.symm.trans hc1
    injection h12 with h13
    exact h13.symm
  have e2 : cb2 = [10] := by
    have hv : Translator.hexBytesOfBytes? [48, 97] = some [10] := by decide
    have h12 := hv.symm.trans hc2
    injection h12 with h13
    exact h13.symm
  have e3 : mb = [[1]] := by
    have hv : Translator.hexBytesList? [[48, 49]] = some [[1]] := by decide
    have h12 := hv.symm.trans hm
    injection h12 with h13
    exact h13.symm
  rw [e1, e2, e3] at hcr
  exact hcr

/-- C5: for every x below 2 to the 24 the u24 encoder succeeds with the
3-byte little-endian codec layout and decoding that layout returns x;
encoding any value of 2 to the 24 or above fails with U24TooBig. -/
theorem claim_C5_u24_roundtrip :
    (∀ x : Nat, x < 16777216 →
      Sv2.u24TryEncode x = .ok (Sv2.primBytes (.u24 x)) ∧
      Sv2.primDecode .U24 (Sv2.primBytes (.u24 x)) 0 = some (.u24 x)) ∧
    (∀ x : Nat, 16777216 ≤ x →
      Sv2.u24TryEncode x = .error (.U24TooBig x)) := by
  constructor
  · intro x hx
    constructor
    · unfold Sv2.u24TryEncode
      rw [if_neg (by omega)]
    · have h3 : (256 : Nat) ^ 3 = 16777216 := by norm_num
      have hwf : Sv2.wfPrim (.u24 x) = true := by
        simp [Sv2.wfPrim, h3]
        omega
      have := Sv2.primDecode_encoded (.u24 x) hwf
      simpa [Sv2.markerOfPrim] using this
  · intro x hx
    unfold Sv2.u24TryEncode
    rw [if_pos hx]

theorem claim_C5_u24_roundtrip_witness :
    (Sv2.u24TryEncode 5 = .ok (Sv2.primBytes (.u24 5)) ∧
      Sv2.primDecode .U24 (Sv2.primBytes (.u24 5)) 0 = some (.u24 5)) ∧
    Sv2.u24TryEncode 16777216 = .error (.U24TooBig 16777216) :=
  ⟨claim_C5_u24_roundtrip.1 5 (by norm_num),
   claim_C5_u24_roundtrip.2 16777216 (by norm_num)⟩

/-- C6: the byte vector produced by a successful to_bytes has length
exactly get_size of the message (fields well-formed per the Rust type
invariants): to_bytes allocates a get_size buffer and the encoder writes
in place, never growing it. -/
theorem claim_C6_size_consistency (m : Sv2.Sv2Fields)
    (h : Sv2.wfFields m = true) (out : List Nat)
    (hout : Sv2.toBytes m = .ok out) :
    out.length = Sv2.getSizeFields m := by
  rw [Sv2.toBytes_eq m h] at hout
  cases hout
  exact Sv2.fieldsBytes_length m h

theorem claim_C6_size_consistency_witness :
    Sv2.toBytes (.cons (.prim (.u32 7)) (.cons (.prim (.b0255 [9])) .nil)) =
      .ok [7, 0, 0, 0, 1, 9] ∧
    ([7, 0, 0, 0, 1, 9] : List Nat).length =
      Sv2.getSizeFields (.cons (.prim (.u32 7))
        (.cons (.prim (.b0255 [9])) .nil)) :=
  ⟨rfl, claim_C6_size_consistency _ (by decide) _ rfl⟩

/-- C7: every handshake step on a NotInitialized or Transport state fails
with NotInHandShakeState; within HandShake state, step_1 and step_3 as an
Initiator fail with InvalidStepForInitiator, and step_0, step_2 and
step_4 as a Responder fail with InvalidStepForResponder.  For the &mut
steps the equations show the state is returned unchanged (so never
Transport, as the input was not); step_3 and step_4 consume the state
and their error results carry no Transport state. -/
theorem claim_C7_handshake_dispatch {I R C E : Type}
    (inner0 : I → Except E (List Nat) × I)
    (inner1 : R → List Nat → Except E (List Nat) × R)
    (inner2 : I → List Nat → Except E (List Nat) × I)
    (inner3 : R → List Nat → Except E (List Nat × C))
    (inner4 : I → List Nat → Except E C)
    (arg : List Nat) (i : I) (r : R) (c : C) :
    (Codec.step0 inner0 (.NotInitialized : Codec.NoiseState I R C) =
      (.error .NotInHandShakeState, .NotInitialized)) ∧
    (Codec.step0 inner0 (.Transport c : Codec.NoiseState I R C) =
      (.error .NotInHandShakeState, .Transport c)) ∧
    (Codec.step0 inner0
        (.HandShake (.Responder r) : Codec.NoiseState I R C) =
      (.error .InvalidStepForResponder, .HandShake (.Responder r))) ∧
    (Codec.step1 inner1 arg (.NotInitialized : Codec.NoiseState I R C) =
      (.error .NotInHandShakeState, .NotInitialized)) ∧
    (Codec.step1 inner1 arg (.Transport c : Codec.NoiseState I R C) =
      (.error .NotInHandShakeState, .Transport c)) ∧
    (Codec.step1 inner1 arg
        (.HandShake (.Initiator i) : Codec.NoiseState I R C) =
      (.error .InvalidStepForInitiator, .HandShake (.Initiator i))) ∧
    (Codec.step2 inner2 arg (.NotInitialized : Codec.NoiseState I R C) =
      (.error .NotInHandShakeState, .NotInitialized)) ∧
    (Codec.step2 inner2 arg (.Transport c : Codec.NoiseState I R C) =
      (.error .NotInHandShakeState, .Transport c)) ∧
    (Codec.step2 inner2 arg
        (.HandShake (.Responder r) : Codec.NoiseState I R C) =
      (.error .InvalidStepForResponder, .HandShake (.Responder r))) ∧
    (Codec.step3 inner3 arg (.NotInitialized : Codec.NoiseState I R C) =
      .error .NotInHandShakeState) ∧
    (Codec.step3 inner3 arg (.Transport c : Codec.NoiseState I R C) =
      .error .NotInHandShakeState) ∧
    (Codec.step3 inner3 arg
        (.HandShake (.Initiator i) : Codec.NoiseState I R C) =
      .error .InvalidStepForInitiator) ∧
    (Codec.step4 inner4 arg (.NotInitialized : Codec.NoiseState I R C) =
      .error .NotInHandShakeState) ∧
    (Codec.step4 inner4 arg (.Transport c : Codec.NoiseState I R C) =
      .error .NotInHandShakeState) ∧
    (Codec.step4 inner4 arg
        (.HandShake (.Responder r) : Codec.NoiseState I R C) =
      .error .InvalidStepForResponder) :=
  ⟨rfl, rfl, rfl, rfl, rfl, rfl, rfl, rfl, rfl, rfl, rfl, rfl, rfl, rfl, rfl⟩

/-- C8: add_job_id removes the entry of prev_job_id (when given) before
inserting (job_id, up_id): afterwards job_id maps to up_id, a distinct
prev_job_id key is gone, every other key is unchanged, and with no
prev_job_id nothing is removed. -/
theorem claim_C8_add_job_id (m : Nat → Option Nat) (jobId upId : Nat)
    (prev : Option Nat) :
    (Translator.addJobId m jobId upId prev jobId = some upId) ∧
    (∀ p, prev = some p → p ≠ jobId →
      Translator.addJobId m jobId upId prev p = none) ∧
    (∀ k, k ≠ jobId → (∀ p, prev = some p → k ≠ p) →
      Translator.addJobId m jobId upId prev k = m k) ∧
    (prev = none → ∀ k, k ≠ jobId →
      Translator.addJobId m jobId upId prev k = m k) := by
  refine ⟨?_, ?_, ?_, ?_⟩
  · cases prev <;> simp [Translator.addJobId]
  · intro p hp hne
    subst hp
    simp [Translator.addJobId, hne]
  · intro k hk hp
    cases hprev : prev with
    | none => simp [Translator.addJobId, hk]
    | some p =>
      have hkp : k ≠ p := hp p hprev
      simp [Translator.addJobId, hk, hkp]
  · intro h k hk
    subst h
    simp [Translator.addJobId, hk]

theorem claim_C8_add_job_id_witness :
    (Translator.addJobId (fun k => if k = 1 then some 10 else none)
      3 30 (some 1) 3 = some 30) ∧
    (Translator.addJobId (fun k => if k = 1 then some 10 else none)
      3 30 (some 1) 1 = none) ∧
    (Translator.addJobId (fun k => if k = 1 then some 10 else none)
      3 30 (some 1) 2 =
      (fun k => if k = 1 then some 10 else none) 2) :=
  ⟨(claim_C8_add_job_id (fun k => if k = 1 then some 10 else none)
      3 30 (some 1)).1,
   (claim_C8_add_job_id (fun k => if k = 1 then some 10 else none)
      3 30 (some 1)).2.1 1 rfl (by decide),
   (claim_C8_add_job_id (fun k => if k = 1 then some 10 else none)
      3 30 (some 1)).2.2.1 2 (by decide)
      (fun p hp => by cases hp; decide)⟩

/-- C9: parsing the V1 mining.configure response with version-rolling
true, mask 1fffe000, min-bit-count 00000005 and minimum-difficulty false
yields mask 0x1fffe000, min bit count 5 and minimum_difficulty
Some false; the same response without min-bit-count parses with min bit
count 0. -/
theorem claim_C9_configure_parsing :
    V1.configureTryFrom ⟨0, .obj [("version-rolling", .bool true),
      ("version-rolling.mask", .str "1fffe000"),
      ("version-rolling.min-bit-count", .str "00000005"),
      ("minimum-difficulty", .bool false)]⟩ =
      .ok ⟨0, some ⟨true, 0x1fffe000, 5⟩, some false⟩ ∧
    V1.configureTryFrom ⟨0, .obj [("version-rolling", .bool true),
      ("version-rolling.mask", .str "1fffe000"),
      ("minimum-difficulty", .bool false)]⟩ =
      .ok ⟨0, some ⟨true, 0x1fffe000, 0⟩, some false⟩ := by
  constructor <;> rfl

/-- C10: Decodable::from_bytes is total and never reads out of bounds:
no input produces the panic outcome (all unchecked splits and primitive
reads stay within the hinted windows), and whenever the hinted size of
the next field exceeds the remaining bytes it returns
DecodableConversionError instead of splitting. -/
theorem claim_C10_decoder_safety (ms : Sv2.FieldMarkers) (data : List Nat) :
    Sv2.fromBytesFields ms data ≠ .error .panic ∧
    (∀ m ms2 s, ms = .cons m ms2 → Sv2.fieldSizeHint m data 0 = .ok s →
      data.length < s →
      Sv2.fromBytesFields ms data = .error (.err .DecodableConversionError)) := by
  refine ⟨Sv2.fromBytesFields_no_panic ms data, ?_⟩
  intro m ms2 s hms hhint hlt
  subst hms
  simp only [Sv2.fromBytesFields, hhint]
  rw [if_pos hlt]

theorem claim_C10_decoder_safety_witness :
    Sv2.fromBytesFields (.cons (.primitive .U32) .nil) [1, 2] =
      .error (.err .DecodableConversionError) ∧
    Sv2.fromBytesFields (.cons (.primitive .U32) .nil) [1, 2] ≠
      .error .panic :=
  ⟨(claim_C10_decoder_safety (.cons (.primitive .U32) .nil) [1, 2]).2
      (.primitive .U32) .nil 4 rfl rfl (by norm_num),
   (claim_C10_decoder_safety (.cons (.primitive .U32) .nil) [1, 2]).1⟩
